import Mathlib

/-!
Verification of the text-to-tensor preprocessing pipeline of the
`Deep-Learning` coursework repository (file `Lab_05/IT21184208_Q3.ipynb`).

The notebook's own logic is four short functions:
  * `load_data`       — `pd.read_csv(..., on_bad_lines='skip')` + `dropna`
  * `clean_text`      — `re.sub(r"[^A-Za-z\s]", "", t)`, `re.sub(r"\s+", " ", t).strip()`
  * `preprocess_text` — Keras `Tokenizer(num_words).fit_on_texts` /
                        `texts_to_sequences` / `pad_sequences(maxlen)`
  * `encode_labels`   — pandas `.map({'positive': 1, 'negative': 0})`

Strings are modelled as `List Char`.  The library calls (Keras tokenizer,
`pad_sequences`, pandas `Series.map`) are embedded by their documented,
deterministic semantics, mirrored statement by statement.
-/

/-- Characters matched by Python's regex class `\s` (and `str.strip`):
the Unicode code points for which CPython's `Py_UNICODE_ISSPACE` holds. -/
def pySpaceCodes : List Nat :=
  [9, 10, 11, 12, 13, 28, 29, 30, 31, 32, 133, 160, 5760,
   8192, 8193, 8194, 8195, 8196, 8197, 8198, 8199, 8200, 8201, 8202,
   8232, 8233, 8239, 8287, 12288]

/-- `True` when the character is whitespace in the sense of Python's `\s`. -/
def isPySpace (c : Char) : Bool := decide (c.toNat ∈ pySpaceCodes)

/-- ASCII letter, the class `[A-Za-z]` of the notebook's regex. -/
def isAsciiLetter (c : Char) : Bool :=
  (65 ≤ c.toNat && c.toNat ≤ 90) || (97 ≤ c.toNat && c.toNat ≤ 122)

/-- A character kept by `re.sub(r"[^A-Za-z\s]", "", text)`. -/
def keepChar (c : Char) : Bool := isAsciiLetter c || isPySpace c

/-- `re.sub(r"[^A-Za-z\s]", "", text)`: delete every character that is
neither an ASCII letter nor whitespace. -/
def removeNonLetters (s : List Char) : List Char := s.filter keepChar

/-- One pass of `re.sub(r"\s+", " ", text)`: every maximal run of
whitespace is replaced by a single `' '`.  The flag records whether the
previous character belonged to a whitespace run already replaced. -/
def collapseAux : Bool → List Char → List Char
  | _, [] => []
  | inRun, c :: cs =>
    if isPySpace c then
      if inRun then collapseAux true cs else ' ' :: collapseAux true cs
    else c :: collapseAux false cs

/-- `re.sub(r"\s+", " ", text)`. -/
def collapseWs (s : List Char) : List Char := collapseAux false s

/-- `str.strip()`: remove leading and trailing whitespace. -/
def stripWs (s : List Char) : List Char :=
  (s.dropWhile isPySpace).rdropWhile isPySpace

/-- The notebook's `clean_text`:
`text = re.sub(r"[^A-Za-z\s]", "", text)`;
`text = re.sub(r"\s+", " ", text).strip()`. -/
def clean_text (s : List Char) : List Char :=
  stripWs (collapseWs (removeNonLetters s))

example : clean_text ("Hi!! 123  there".toList) = "Hi there".toList := by decide

/-! ### Keras `Tokenizer` and `pad_sequences`

`preprocess_text` delegates to `keras.preprocessing.text.Tokenizer`
(constructed with `num_words=max_words` and otherwise default arguments:
`filters='!"#$%&()*+,-./:;<=>?@[\]^_`{|}~\t\n'`, `lower=True`,
`split=' '`, `oov_token=None`) and to
`keras.preprocessing.sequence.pad_sequences` (default `padding='pre'`,
`truncating='pre'`, `value=0`).  The definitions below embed those
documented semantics. -/

/-- Code points of the Tokenizer's default `filters` string. -/
def kerasFilterCodes : List Nat :=
  [33, 34, 35, 36, 37, 38, 40, 41, 42, 43, 44, 45, 46, 47,
   58, 59, 60, 61, 62, 63, 64, 91, 92, 93, 94, 95, 96,
   123, 124, 125, 126, 9, 10]

/-- The Tokenizer's `maketrans(filters, split * len(filters))` step:
every filter character becomes the split character `' '`. -/
def applyFilters (s : List Char) : List Char :=
  s.map (fun c => if decide (c.toNat ∈ kerasFilterCodes) then ' ' else c)

/-- `str.split(' ')` followed by dropping empty items, i.e. maximal runs
of non-`' '` characters in order.  The accumulator holds the current run
reversed. -/
def splitWordsAux : List Char → List Char → List (List Char)
  | [], acc => if acc.isEmpty then [] else [acc.reverse]
  | c :: cs, acc =>
    if c = ' ' then
      if acc.isEmpty then splitWordsAux cs [] else acc.reverse :: splitWordsAux cs []
    else splitWordsAux cs (c :: acc)

/-- `[i for i in text.split(split) if i]`. -/
def splitWords (s : List Char) : List (List Char) := splitWordsAux s []

/-- Keras `text_to_word_sequence` with default arguments: lower-case
(`Char.toLower` is exactly `str.lower` on the ASCII text produced by
`clean_text`), translate filter characters to `' '`, split, drop empties. -/
def text_to_word_sequence (s : List Char) : List (List Char) :=
  splitWords (applyFilters (s.map Char.toLower))

/-- One `word_counts[w] += 1` step on the insertion-ordered counts list
(Python's `OrderedDict`): first occurrence appends at the end. -/
def addToken (counts : List ((List Char) × Nat)) (w : List Char) :
    List ((List Char) × Nat) :=
  match counts with
  | [] => [(w, 1)]
  | (t, n) :: rest => if t = w then (t, n + 1) :: rest else (t, n) :: addToken rest w

/-- `fit_on_texts`: token frequencies over the whole corpus, in
first-seen order. -/
def wordCounts (texts : List (List Char)) : List ((List Char) × Nat) :=
  texts.foldl (fun acc t => (text_to_word_sequence t).foldl addToken acc) []

/-- Insert into a list already sorted by descending count, after every
entry of greater-or-equal count: the insertion point Python's stable
`list.sort(key=count, reverse=True)` gives later elements. -/
def insertDesc (x : (List Char) × Nat) :
    List ((List Char) × Nat) → List ((List Char) × Nat)
  | [] => [x]
  | y :: ys => if x.2 ≤ y.2 then y :: insertDesc x ys else x :: y :: ys

/-- `wcounts.sort(key=lambda x: x[1], reverse=True)`: stable sort by
descending count (ties keep first-seen order). -/
def sortByCountDesc (l : List ((List Char) × Nat)) : List ((List Char) × Nat) :=
  l.foldl (fun acc x => insertDesc x acc) []

/-- The Tokenizer's `word_index`: every distinct token of the corpus,
ranked by descending frequency (stable ties), paired with IDs 1, 2, 3, …
`num_words` plays no role here; it is applied only in
`texts_to_sequences`. -/
def word_index (texts : List (List Char)) : List ((List Char) × Nat) :=
  ((sortByCountDesc (wordCounts texts)).map Prod.fst).enum.map
    (fun p => (p.2, p.1 + 1))

/-- `self.word_index.get(w)`. -/
def lookupIndex (wi : List ((List Char) × Nat)) (w : List Char) : Option Nat :=
  (wi.find? (fun p => p.1 = w)).map Prod.snd

/-- One text of `texts_to_sequences` (with `oov_token=None`): a token is
kept iff it is in `word_index` and, when `num_words` is truthy, its ID
`i` does not satisfy `i >= num_words`. -/
def textToSequence (wi : List ((List Char) × Nat)) (numWords : Nat)
    (t : List Char) : List Nat :=
  (text_to_word_sequence t).filterMap (fun w =>
    match lookupIndex wi w with
    | none => none
    | some i => if numWords ≠ 0 ∧ numWords ≤ i then none else some i)

/-- `tokenizer.texts_to_sequences(texts)`. -/
def texts_to_sequences (wi : List ((List Char) × Nat)) (numWords : Nat)
    (texts : List (List Char)) : List (List Nat) :=
  texts.map (textToSequence wi numWords)

/-- `pad_sequences` on one sequence, default `padding='pre'`,
`truncating='pre'`, `value=0`: keep the last `maxlen` entries, then
prepend zeros up to length `maxlen`. -/
def padSequence (maxlen : Nat) (s : List Nat) : List Nat :=
  List.replicate (maxlen - (s.drop (s.length - maxlen)).length) 0 ++
    s.drop (s.length - maxlen)

/-- `pad_sequences(sequences, maxlen=max_len)`. -/
def pad_sequences (maxlen : Nat) (seqs : List (List Nat)) : List (List Nat) :=
  seqs.map (padSequence maxlen)

/-- The notebook's `preprocess_text(reviews, max_words, max_len)`:
clean every review, fit the tokenizer on the cleaned corpus, convert to
integer sequences, pad to `max_len`; returns the padded matrix together
with the fitted `word_index`. -/
def preprocess_text (reviews : List (List Char)) (max_words max_len : Nat) :
    List (List Nat) × List ((List Char) × Nat) :=
  (pad_sequences max_len
     (texts_to_sequences (word_index (reviews.map clean_text)) max_words
        (reviews.map clean_text)),
   word_index (reviews.map clean_text))

/-- One label through pandas `Series.map({'positive': 1, 'negative': 0})`:
a key absent from the dict silently becomes a missing value (`NaN`),
modelled as `none`. -/
def encodeLabel (s : List Char) : Option Nat :=
  if s = "positive".toList then some 1
  else if s = "negative".toList then some 0
  else none

/-- The notebook's `encode_labels(sentiments)`. -/
def encode_labels (sentiments : List (List Char)) : List (Option Nat) :=
  sentiments.map encodeLabel

example :
    word_index ["a a b".toList, "b c".toList] =
      [("a".toList, 1), ("b".toList, 2), ("c".toList, 3)] := by decide

example :
    texts_to_sequences (word_index ["a a b".toList, "b c".toList]) 2
      ["a a b".toList, "b c".toList] = [[1, 1], []] := by decide

/-! ### Ingestor (`load_data`) -/

/-- A parsed input row: either structurally malformed (wrong field
count, stray delimiters/quotes — what `on_bad_lines='skip'` discards),
or a row whose `review` and `sentiment` fields may each be missing. -/
inductive CsvRow
  | malformed
  | fields (text : Option (List Char)) (label : Option (List Char))

/-- A Record of the pipeline: both fields populated. -/
structure Record where
  text : List Char
  label : List Char
deriving DecidableEq

/-- Modelled from the spec: the row-level effect of
`pd.read_csv(..., engine='python', on_bad_lines='skip')` followed by
`df.dropna()` — pandas library code not under `src/`.  A malformed row
is skipped; a row missing `text` or `label` is dropped; only rows with
both fields survive. -/
def parseRow : CsvRow → Option Record
  | .malformed => none
  | .fields (some t) (some l) => some ⟨t, l⟩
  | .fields _ _ => none

/-- Fatal outcome of the Ingestor. -/
inductive LoadError
  | fatal
deriving DecidableEq

/-- Modelled from the spec: the notebook's `load_data` around pandas
file reading (not under `src/`).  The input is `none` when the file does
not exist or cannot be parsed at all; otherwise the parsed rows.  The
load is fatal exactly when there is no input or no valid row survives;
otherwise it returns the surviving Records in order. -/
def load_data : Option (List CsvRow) → Except LoadError (List Record)
  | none => .error .fatal
  | some rows =>
    if (rows.filterMap parseRow).isEmpty then .error .fatal
    else .ok (rows.filterMap parseRow)

/-! ### Shape predicates for normalized text -/

/-- Every character is an ASCII letter or the single blank `' '`. -/
def LettersAndBlanks (l : List Char) : Prop :=
  ∀ c ∈ l, isAsciiLetter c = true ∨ c = ' '

/-- No two adjacent whitespace characters. -/
def NoWsRun (l : List Char) : Prop :=
  l.Chain' (fun a b => isPySpace a = false ∨ isPySpace b = false)

/-- The first character, when present, is not whitespace. -/
def HeadNotWs (l : List Char) : Prop := ∀ c ∈ l.head?, isPySpace c = false

/-- The final character, when present, is not whitespace. -/
def LastNotWs (l : List Char) : Prop := ∀ c ∈ l.getLast?, isPySpace c = false

/-! ### Character-class facts -/

theorem isAsciiLetter_pySpace_false {c : Char} (h : isAsciiLetter c = true) :
    isPySpace c = false := by
  by_contra hcon
  have hs : isPySpace c = true := by
    cases hx : isPySpace c
    · exact absurd hx hcon
    · rfl
  simp only [isAsciiLetter, Bool.or_eq_true, Bool.and_eq_true, decide_eq_true_eq] at h
  simp only [isPySpace, pySpaceCodes, decide_eq_true_eq, List.mem_cons,
    List.not_mem_nil, or_false] at hs
  omega

theorem pySpace_isAsciiLetter_false {c : Char} (h : isPySpace c = true) :
    isAsciiLetter c = false := by
  cases hx : isAsciiLetter c
  · rfl
  · rw [isAsciiLetter_pySpace_false hx] at h
    exact absurd h (by simp)

theorem pySpace_blank : isPySpace ' ' = true := by decide

theorem blank_not_letter : isAsciiLetter ' ' = false := by decide

/-! ### Facts about `collapseAux` -/

theorem collapseAux_space_cons {d : Char} (ds : List Char) (hd : isPySpace d = true) :
    collapseAux false (d :: ds) = ' ' :: collapseAux true ds ∧
    collapseAux true (d :: ds) = collapseAux true ds := by
  constructor <;> simp [collapseAux, hd]

theorem collapseAux_nonspace_cons {d : Char} (ds : List Char) (b : Bool)
    (hd : isPySpace d = false) :
    collapseAux b (d :: ds) = d :: collapseAux false ds := by
  cases b <;> simp [collapseAux, hd]

theorem mem_collapseAux {c : Char} :
    ∀ (s : List Char) (b : Bool), c ∈ collapseAux b s →
      (c ∈ s ∧ isPySpace c = false) ∨ c = ' '
  | [], b => by simp [collapseAux]
  | d :: ds, b => by
    intro hmem
    cases hd : isPySpace d
    · rw [collapseAux_nonspace_cons ds b hd] at hmem
      rcases List.mem_cons.mp hmem with hc | hc
      · subst hc
        exact Or.inl ⟨List.mem_cons_self c ds, hd⟩
      · rcases mem_collapseAux ds false hc with ⟨hin, hns⟩ | hblank
        · exact Or.inl ⟨List.mem_cons_of_mem d hin, hns⟩
        · exact Or.inr hblank
    · have hrec : c ∈ collapseAux true ds → _ := mem_collapseAux ds true
      cases b
      · rw [(collapseAux_space_cons ds hd).1] at hmem
        rcases List.mem_cons.mp hmem with hc | hc
        · exact Or.inr hc
        · rcases hrec hc with ⟨hin, hns⟩ | hblank
          · exact Or.inl ⟨List.mem_cons_of_mem d hin, hns⟩
          · exact Or.inr hblank
      · rw [(collapseAux_space_cons ds hd).2] at hmem
        rcases hrec hmem with ⟨hin, hns⟩ | hblank
        · exact Or.inl ⟨List.mem_cons_of_mem d hin, hns⟩
        · exact Or.inr hblank

theorem collapseAux_true_head :
    ∀ (s : List Char) (c : Char) (l : List Char),
      collapseAux true s = c :: l → isPySpace c = false
  | [], c, l => by simp [collapseAux]
  | d :: ds, c, l => by
    intro h
    cases hd : isPySpace d
    · rw [collapseAux_nonspace_cons ds true hd] at h
      rw [← (List.cons.injEq .. ▸ h : d = c ∧ _).1]
      exact hd
    · rw [(collapseAux_space_cons ds hd).2] at h
      exact collapseAux_true_head ds c l h

theorem noWsRun_collapseAux : ∀ (s : List Char) (b : Bool), NoWsRun (collapseAux b s)
  | [], b => by simp [collapseAux, NoWsRun]
  | d :: ds, b => by
    cases hd : isPySpace d
    · rw [collapseAux_nonspace_cons ds b hd]
      refine List.chain'_cons'.mpr ⟨?_, noWsRun_collapseAux ds false⟩
      intro y _
      exact Or.inl hd
    · cases b
      · rw [(collapseAux_space_cons ds hd).1]
        refine List.chain'_cons'.mpr ⟨?_, noWsRun_collapseAux ds true⟩
        intro y hy
        cases hu : collapseAux true ds with
        | nil => rw [hu] at hy; simp at hy
        | cons u us =>
          rw [hu] at hy
          simp only [List.head?_cons, Option.mem_def, Option.some.injEq] at hy
          exact Or.inr (hy ▸ collapseAux_true_head ds u us hu)
      · rw [(collapseAux_space_cons ds hd).2]
        exact noWsRun_collapseAux ds true

/-! ### Facts about `stripWs` -/

theorem dropWhile_head_not {p : Char → Bool} :
    ∀ (l : List Char) {c : Char} {t : List Char}, l.dropWhile p = c :: t → p c = false
  | [], c, t => by simp
  | d :: ds, c, t => by
    intro h
    cases hd : p d
    · rw [List.dropWhile_cons_of_neg (by simp [hd])] at h
      rw [← (List.cons.injEq .. ▸ h : d = c ∧ _).1]
      exact hd
    · rw [List.dropWhile_cons_of_pos hd] at h
      exact dropWhile_head_not ds h

theorem mem_stripWs {c : Char} {l : List Char} (h : c ∈ stripWs l) : c ∈ l := by
  have hp := List.rdropWhile_prefix isPySpace (l.dropWhile isPySpace)
  have h1 : c ∈ l.dropWhile isPySpace := List.IsPrefix.mem h hp
  exact List.IsSuffix.mem h1 (List.dropWhile_suffix isPySpace)

theorem noWsRun_stripWs {l : List Char} (h : NoWsRun l) : NoWsRun (stripWs l) := by
  have h1 : NoWsRun (l.dropWhile isPySpace) :=
    List.Chain'.suffix h (List.dropWhile_suffix isPySpace)
  have hp := List.rdropWhile_prefix isPySpace (l.dropWhile isPySpace)
  exact List.Chain'.prefix h1 hp

theorem headNotWs_stripWs (l : List Char) : HeadNotWs (stripWs l) := by
  intro c hc
  cases hs : stripWs l with
  | nil => rw [hs] at hc; simp at hc
  | cons d ds =>
    rw [hs] at hc
    simp only [List.head?_cons, Option.mem_def, Option.some.injEq] at hc
    subst hc
    have hp := List.rdropWhile_prefix isPySpace (l.dropWhile isPySpace)
    rw [stripWs] at hs
    rw [hs] at hp
    obtain ⟨r, hr⟩ := hp
    exact dropWhile_head_not l hr.symm

theorem lastNotWs_stripWs (l : List Char) : LastNotWs (stripWs l) := by
  intro c hc
  cases hs : stripWs l with
  | nil => rw [hs] at hc; simp at hc
  | cons d ds =>
    have hne : stripWs l ≠ [] := by rw [hs]; simp
    rw [List.getLast?_eq_getLast _ hne] at hc
    simp only [Option.mem_def, Option.some.injEq] at hc
    subst hc
    have := List.rdropWhile_last_not isPySpace (l.dropWhile isPySpace) hne
    simpa using this

/-! ### Fixed points of the normalization passes -/

theorem collapseAux_fixed :
    ∀ s : List Char, NoWsRun s → (∀ c ∈ s, isPySpace c = true → c = ' ') →
      collapseAux false s = s ∧ (HeadNotWs s → collapseAux true s = s)
  | [] => fun _ _ => ⟨rfl, fun _ => rfl⟩
  | d :: ds => by
    intro hrun hblank
    obtain ⟨hhead, htail⟩ := List.chain'_cons'.mp hrun
    have hblank' : ∀ c ∈ ds, isPySpace c = true → c = ' ' :=
      fun c hc => hblank c (List.mem_cons_of_mem d hc)
    have ih := collapseAux_fixed ds htail hblank'
    cases hd : isPySpace d
    · constructor
      · rw [collapseAux_nonspace_cons ds false hd, ih.1]
      · intro _
        rw [collapseAux_nonspace_cons ds true hd, ih.1]
    · have hds : HeadNotWs ds := by
        intro y hy
        rcases hhead y hy with hl | hr
        · rw [hd] at hl; cases hl
        · exact hr
      constructor
      · rw [(collapseAux_space_cons ds hd).1, ih.2 hds, hblank d (List.mem_cons_self d ds) hd]
      · intro hheadcons
        have := hheadcons d (by simp)
        rw [hd] at this
        cases this
  termination_by s => s.length

theorem stripWs_fixed (s : List Char) (h1 : HeadNotWs s) (h2 : LastNotWs s) :
    stripWs s = s := by
  cases s with
  | nil => rfl
  | cons d ds =>
    have hd : isPySpace d = false := h1 d (by simp)
    rw [stripWs, List.dropWhile_cons_of_neg (by simp [hd])]
    rw [List.rdropWhile_eq_self_iff]
    intro hne
    have := h2 ((d :: ds).getLast hne) (by rw [List.getLast?_eq_getLast _ hne]; rfl)
    simp [this]

/-! ### Shape of `clean_text` output -/

theorem clean_text_lettersAndBlanks (s : List Char) : LettersAndBlanks (clean_text s) := by
  intro c hc
  have h1 : c ∈ collapseAux false (removeNonLetters s) := mem_stripWs hc
  rcases mem_collapseAux (removeNonLetters s) false h1 with ⟨hin, hns⟩ | hblank
  · left
    have hk : keepChar c = true := (List.mem_filter.mp hin).2
    rcases Bool.or_eq_true .. ▸ hk with hl | hs
    · exact hl
    · rw [hns] at hs; cases hs
  · exact Or.inr hblank

theorem clean_text_noWsRun (s : List Char) : NoWsRun (clean_text s) :=
  noWsRun_stripWs (noWsRun_collapseAux (removeNonLetters s) false)

theorem clean_text_headNotWs (s : List Char) : HeadNotWs (clean_text s) :=
  headNotWs_stripWs (collapseWs (removeNonLetters s))

theorem clean_text_lastNotWs (s : List Char) : LastNotWs (clean_text s) :=
  lastNotWs_stripWs (collapseWs (removeNonLetters s))

theorem clean_text_fixed (s : List Char) (hlb : LettersAndBlanks s) (hrun : NoWsRun s)
    (hhd : HeadNotWs s) (hlast : LastNotWs s) : clean_text s = s := by
  have hblank : ∀ c ∈ s, isPySpace c = true → c = ' ' := by
    intro c hc hsp
    rcases hlb c hc with hl | hb
    · rw [isAsciiLetter_pySpace_false hl] at hsp; cases hsp
    · exact hb
  have h1 : removeNonLetters s = s := by
    rw [removeNonLetters]
    refine List.filter_eq_self.mpr (fun c hc => ?_)
    rcases hlb c hc with hl | hb
    · simp [keepChar, hl]
    · subst hb; simp [keepChar, pySpace_blank]
  have h2 : collapseWs s = s := (collapseAux_fixed s hrun hblank).1
  rw [clean_text, h1, collapseWs] at *
  rw [h2, stripWs_fixed s hhd hlast]

/-! ### The letters of the input survive `clean_text` unchanged -/

theorem filter_letters_collapseAux :
    ∀ (s : List Char) (b : Bool),
      (collapseAux b s).filter isAsciiLetter = s.filter isAsciiLetter
  | [], b => rfl
  | d :: ds, b => by
    cases hd : isPySpace d
    · rw [collapseAux_nonspace_cons ds b hd]
      simp [List.filter_cons, filter_letters_collapseAux ds false]
    · have hdl : isAsciiLetter d = false := pySpace_isAsciiLetter_false hd
      cases b
      · rw [(collapseAux_space_cons ds hd).1]
        simp [List.filter_cons, hdl, blank_not_letter, filter_letters_collapseAux ds true]
      · rw [(collapseAux_space_cons ds hd).2]
        simp [List.filter_cons, hdl, filter_letters_collapseAux ds true]

theorem filter_letters_dropWhile (l : List Char) :
    (l.dropWhile isPySpace).filter isAsciiLetter = l.filter isAsciiLetter := by
  conv_rhs => rw [← List.takeWhile_append_dropWhile isPySpace l]
  rw [List.filter_append]
  have hnil : (l.takeWhile isPySpace).filter isAsciiLetter = [] := by
    refine List.filter_eq_nil_iff.mpr (fun c hc => ?_)
    simp [pySpace_isAsciiLetter_false (List.mem_takeWhile_imp hc)]
  rw [hnil, List.nil_append]

theorem filter_letters_rdropWhile (l : List Char) :
    (l.rdropWhile isPySpace).filter isAsciiLetter = l.filter isAsciiLetter := by
  rw [List.rdropWhile, List.filter_reverse, filter_letters_dropWhile,
    ← List.filter_reverse, List.reverse_reverse]

theorem filter_letters_clean_text (s : List Char) :
    (clean_text s).filter isAsciiLetter = s.filter isAsciiLetter := by
  rw [clean_text, stripWs, collapseWs, removeNonLetters,
    filter_letters_rdropWhile, filter_letters_dropWhile, filter_letters_collapseAux,
    List.filter_filter]
  refine List.filter_congr (fun c _ => ?_)
  cases hl : isAsciiLetter c
  · simp
  · simp [keepChar, hl]

theorem clean_text_eq_nil_of_no_letters {s : List Char}
    (h : ∀ c ∈ s, isAsciiLetter c = false) : clean_text s = [] := by
  cases hc : clean_text s with
  | nil => rfl
  | cons d ds =>
    have hmem : d ∈ clean_text s := by rw [hc]; exact List.mem_cons_self d ds
    have hfil : (clean_text s).filter isAsciiLetter = [] := by
      rw [filter_letters_clean_text]
      exact List.filter_eq_nil_iff.mpr (fun c hcm => by simp [h c hcm])
    have hdl : ¬ isAsciiLetter d = true := List.filter_eq_nil_iff.mp hfil d hmem
    rcases clean_text_lettersAndBlanks s d hmem with hl | hb
    · exact absurd hl hdl
    · have hhd := clean_text_headNotWs s d (by rw [hc]; rfl)
      rw [hb] at hhd
      rw [pySpace_blank] at hhd
      cases hhd

/-! ### Facts about `padSequence` and `textToSequence` -/

theorem padSequence_length (maxlen : Nat) (s : List Nat) :
    (padSequence maxlen s).length = maxlen := by
  simp only [padSequence, List.length_append, List.length_replicate, List.length_drop]
  omega

theorem mem_padSequence {x maxlen : Nat} {s : List Nat}
    (h : x ∈ padSequence maxlen s) : x = 0 ∨ x ∈ s := by
  rcases List.mem_append.mp h with h1 | h1
  · exact Or.inl (List.eq_of_mem_replicate h1)
  · exact Or.inr (List.Sublist.mem h1 (List.drop_sublist _ _))

theorem textToSequence_lt {wi : List ((List Char) × Nat)} {numWords : Nat}
    {t : List Char} (hn : 0 < numWords) :
    ∀ x ∈ textToSequence wi numWords t, x < numWords := by
  intro x hx
  rw [textToSequence] at hx
  rcases List.mem_filterMap.mp hx with ⟨w, _, hw⟩
  cases hl : lookupIndex wi w with
  | none => rw [hl] at hw; cases hw
  | some i =>
    rw [hl] at hw
    by_cases hcond : numWords ≠ 0 ∧ numWords ≤ i
    · simp [hcond] at hw
    · simp only [hcond, if_false] at hw
      have hxi : i = x := by
        simpa using hw
      subst hxi
      rcases Decidable.not_and_iff_or_not.mp hcond with hz | hle
      · exact absurd (Nat.pos_iff_ne_zero.mp hn) hz
      · omega

theorem textToSequence_nil (wi : List ((List Char) × Nat)) (numWords : Nat) :
    textToSequence wi numWords [] = [] := rfl

theorem padSequence_nil (maxlen : Nat) :
    padSequence maxlen [] = List.replicate maxlen 0 := by
  simp [padSequence]

theorem mem_preprocess_output {reviews : List (List Char)} {mw ml : Nat}
    {row : List Nat} (h : row ∈ (preprocess_text reviews mw ml).1) :
    ∃ t : List Char,
      row = padSequence ml (textToSequence (word_index (reviews.map clean_text)) mw t) := by
  simp only [preprocess_text, pad_sequences, texts_to_sequences, List.map_map] at h
  rcases List.mem_map.mp h with ⟨t, _, ht⟩
  exact ⟨clean_text t, ht.symm⟩

/-! ### The claims -/

/-- C1: for every input text and every fitted vocabulary, the transform
step — `texts_to_sequences` followed by `pad_sequences` — returns a
sequence of exactly `max_len` integers, whatever the token length of the
input; in particular every row of the matrix `preprocess_text` returns
has length `max_len`. -/
theorem C1_transform_length :
    ∀ (max_len max_words : Nat) (wi : List ((List Char) × Nat)) (t : List Char),
      (padSequence max_len (textToSequence wi max_words t)).length = max_len ∧
      ∀ (reviews : List (List Char)) (row : List Nat),
        row ∈ (preprocess_text reviews max_words max_len).1 → row.length = max_len := by
  intro max_len max_words wi t
  refine ⟨padSequence_length _ _, ?_⟩
  intro reviews row hrow
  rcases mem_preprocess_output hrow with ⟨u, hu⟩
  rw [hu]
  exact padSequence_length _ _

/-- Witness for C1: a one-token review padded to length 3. -/
theorem C1_transform_length_witness :
    [0, 0, 1] ∈ (preprocess_text ["a".toList] 5 3).1 ∧
    ([0, 0, 1] : List Nat).length = 3 :=
  ⟨by decide,
   (C1_transform_length 3 5 [] []).2 ["a".toList] [0, 0, 1] (by decide)⟩

/-- C2: a token sequence shorter than `max_len` is pre-padded — leading
zeros followed by the real token IDs in original order — and a sequence
longer than `max_len` is pre-truncated — exactly the last `max_len`
token IDs in original order. -/
theorem C2_padding_truncation_policy :
    ∀ (max_len : Nat) (s : List Nat),
      (s.length ≤ max_len →
        padSequence max_len s = List.replicate (max_len - s.length) 0 ++ s) ∧
      (max_len ≤ s.length →
        padSequence max_len s = s.drop (s.length - max_len)) := by
  intro max_len s
  constructor
  · intro h
    rw [padSequence, Nat.sub_eq_zero_of_le h, List.drop_zero]
  · intro h
    have hlen : (s.drop (s.length - max_len)).length = max_len := by
      rw [List.length_drop]
      omega
    rw [padSequence, hlen, Nat.sub_self, List.replicate_zero, List.nil_append]

/-- Witness for C2: `[5, 6]` pre-padded to length 4, and `[9, 8, 7]`
pre-truncated to its last 2 entries. -/
theorem C2_padding_truncation_policy_witness :
    padSequence 4 [5, 6] = [0, 0, 5, 6] ∧ padSequence 2 [9, 8, 7] = [8, 7] := by
  constructor
  · rw [(C2_padding_truncation_policy 4 [5, 6]).1 (by decide)]
    decide
  · rw [(C2_padding_truncation_policy 2 [9, 8, 7]).2 (by decide)]
    decide

/-- C3 fails on the code: on corpus `["a a b", "b c"]` with
`max_words = 2` the fitted `word_index` contains `c` as well (IDs are
assigned to every distinct token), and the token `b` — ID 2 — is dropped
by `texts_to_sequences`, because Keras keeps a token only when its ID is
strictly below `num_words`.  So the fitted Vocabulary does not "contain
only the tokens a and b": the full index is `{a, b, c}` while the
effectively retained set is `{a}` alone. -/
theorem C3_fit_counterexample :
    ¬ ((word_index ["a a b".toList, "b c".toList]).map Prod.fst
        = ["a".toList, "b".toList]) ∧
    textToSequence (word_index ["a a b".toList, "b c".toList]) 2 ("b".toList)
      = [] := by
  decide

/-- C3 (amended): `fit` assigns every distinct token of the corpus an ID
by descending frequency with first-seen tie-break, and the transform
step retains only the tokens with ID strictly below `max_words`, i.e.
the `max_words - 1` most frequent ones.  On corpus `["a a b", "b c"]`
with `max_words = 2`: `a ↦ 1`, `b ↦ 2`, `c ↦ 3` (lower ID to the more
frequent `a`), and only `a` survives the transform. -/
theorem C3_fit_vocabulary :
    word_index ["a a b".toList, "b c".toList] =
      [("a".toList, 1), ("b".toList, 2), ("c".toList, 3)] ∧
    texts_to_sequences (word_index ["a a b".toList, "b c".toList]) 2
      ["a a b".toList, "b c".toList] = [[1, 1], []] := by
  decide

/-- C4: the label encoder maps `"positive"` to 1 and `"negative"` to 0
at every position of the sentiment column. -/
theorem C4_label_encoding :
    ∀ (sentiments : List (List Char)) (i : Nat),
      (sentiments[i]? = some ("positive".toList) →
        (encode_labels sentiments)[i]? = some (some 1)) ∧
      (sentiments[i]? = some ("negative".toList) →
        (encode_labels sentiments)[i]? = some (some 0)) := by
  intro sentiments i
  constructor
  · intro h
    rw [encode_labels, List.getElem?_map, h]
    rfl
  · intro h
    rw [encode_labels, List.getElem?_map, h]
    rfl

/-- Witness for C4: a two-record sentiment column. -/
theorem C4_label_encoding_witness :
    (encode_labels ["positive".toList, "negative".toList])[0]? = some (some 1) ∧
    (encode_labels ["positive".toList, "negative".toList])[1]? = some (some 0) :=
  ⟨(C4_label_encoding ["positive".toList, "negative".toList] 0).1 (by decide),
   (C4_label_encoding ["positive".toList, "negative".toList] 1).2 (by decide)⟩

/-- C5: the code evaluated at the failing input — pandas
`.map({'positive': 1, 'negative': 0})` sends the unknown label
`"neutral"` to a silent missing value (`none`, modelling `NaN`) instead
of raising an explicit `UnknownLabelError`. -/
theorem C5_unknown_label_silently_missing :
    encodeLabel ("neutral".toList) = none ∧
    encode_labels ["positive".toList, "neutral".toList, "negative".toList]
      = [some 1, none, some 0] := by
  decide

/-- C6: `clean_text` keeps exactly the ASCII letters of its input, in
order; every character of the output is an ASCII letter or a single
blank; no two blanks are adjacent; the output neither starts nor ends
with whitespace; and `clean_text("Hi!! 123  there") = "Hi there"`. -/
theorem C6_clean_text_normalizes :
    clean_text ("Hi!! 123  there".toList) = "Hi there".toList ∧
    ∀ s : List Char,
      LettersAndBlanks (clean_text s) ∧
      (clean_text s).filter isAsciiLetter = s.filter isAsciiLetter ∧
      NoWsRun (clean_text s) ∧
      HeadNotWs (clean_text s) ∧
      LastNotWs (clean_text s) :=
  ⟨by decide, fun s =>
    ⟨clean_text_lettersAndBlanks s, filter_letters_clean_text s,
     clean_text_noWsRun s, clean_text_headNotWs s, clean_text_lastNotWs s⟩⟩

/-- C7: `clean_text` is idempotent on every input. -/
theorem C7_clean_text_idempotent :
    ∀ s : List Char, clean_text (clean_text s) = clean_text s :=
  fun s =>
    clean_text_fixed (clean_text s) (clean_text_lettersAndBlanks s)
      (clean_text_noWsRun s) (clean_text_headNotWs s) (clean_text_lastNotWs s)

/-- C8: the Ingestor skips structurally malformed rows, drops rows with
a missing text or label, keeps every complete row, and is fatal exactly
when the file is missing/unparseable (`none` input) or no valid row
survives. -/
theorem C8_load_data_error_handling :
    load_data none = Except.error LoadError.fatal ∧
    ∀ rows : List CsvRow,
      (load_data (some rows) = Except.error LoadError.fatal ↔
        rows.filterMap parseRow = []) ∧
      (rows.filterMap parseRow ≠ [] →
        load_data (some rows) = Except.ok (rows.filterMap parseRow)) ∧
      parseRow CsvRow.malformed = none ∧
      (∀ t : Option (List Char), parseRow (CsvRow.fields t none) = none) ∧
      (∀ l : Option (List Char), parseRow (CsvRow.fields none l) = none) ∧
      (∀ t l : List Char,
        parseRow (CsvRow.fields (some t) (some l)) = some ⟨t, l⟩) := by
  refine ⟨rfl, fun rows => ⟨?_, ?_, rfl, ?_, ?_, fun t l => rfl⟩⟩
  · rw [load_data]
    by_cases h : (rows.filterMap parseRow).isEmpty
    · simp only [h, if_true]
      exact ⟨fun _ => List.isEmpty_iff.mp h, fun _ => trivial⟩
    · simp only [h, if_false]
      constructor
      · intro hcon; cases hcon
      · intro hnil
        exact absurd (List.isEmpty_iff.mpr hnil) h
  · intro hne
    rw [load_data]
    have h : (rows.filterMap parseRow).isEmpty = false := by
      cases hx : (rows.filterMap parseRow).isEmpty
      · rfl
      · exact absurd (List.isEmpty_iff.mp hx) hne
    simp [h]
  · intro t
    cases t <;> rfl
  · intro l
    cases l <;> rfl

/-- Witness for C8: a malformed row and a row with a missing text are
dropped, the complete row survives, and the load succeeds. -/
theorem C8_load_data_error_handling_witness :
    load_data (some [CsvRow.malformed,
        CsvRow.fields (some "good".toList) (some "positive".toList),
        CsvRow.fields none (some "negative".toList)]) =
      Except.ok [⟨"good".toList, "positive".toList⟩] := by
  have h := (C8_load_data_error_handling.2 [CsvRow.malformed,
      CsvRow.fields (some "good".toList) (some "positive".toList),
      CsvRow.fields none (some "negative".toList)]).2.1 (by decide)
  rw [h]
  rfl

/-- C9: with a positive `max_words` bound, every entry of the padded
matrix `preprocess_text` returns lies strictly below `max_words`: the
padding value is 0 and every retained token ID `i` passed the Keras
check `i < num_words`, so each entry indexes validly into an embedding
table of cardinality `max_words`. -/
theorem C9_sequence_elements_bounded :
    ∀ (reviews : List (List Char)) (max_words max_len : Nat),
      0 < max_words →
      ∀ row ∈ (preprocess_text reviews max_words max_len).1,
        ∀ x ∈ row, x < max_words := by
  intro reviews max_words max_len hmw row hrow x hx
  rcases mem_preprocess_output hrow with ⟨t, ht⟩
  rw [ht] at hx
  rcases mem_padSequence hx with hz | hmem
  · rw [hz]; exact hmw
  · exact textToSequence_lt hmw x hmem

/-- Witness for C9: the entries 0 and 1 of the padded row for a
one-token review are below the bound 5. -/
theorem C9_sequence_elements_bounded_witness :
    0 < 5 ∧ [0, 0, 1] ∈ (preprocess_text ["a".toList] 5 3).1 ∧ (1 : Nat) < 5 :=
  ⟨by decide, by decide,
   C9_sequence_elements_bounded ["a".toList] 5 3 (by decide) [0, 0, 1]
     (by decide) 1 (by decide)⟩

/-- C10: a string with no ASCII letter cleans to the empty string, and
the pipeline maps any such review to the all-zero row of length
`max_len`. -/
theorem C10_no_letters_all_zeros :
    ∀ s : List Char, (∀ c ∈ s, isAsciiLetter c = false) →
      clean_text s = [] ∧
      ∀ (reviews : List (List Char)) (max_words max_len i : Nat),
        reviews[i]? = some s →
        ((preprocess_text reviews max_words max_len).1)[i]? =
          some (List.replicate max_len 0) := by
  intro s hs
  have hnil := clean_text_eq_nil_of_no_letters hs
  refine ⟨hnil, ?_⟩
  intro reviews max_words max_len i hi
  simp only [preprocess_text, pad_sequences, texts_to_sequences, List.map_map]
  rw [List.getElem?_map, hi]
  simp only [Function.comp, Option.map_some']
  rw [hnil, textToSequence_nil, padSequence_nil]

/-- Witness for C10: the letterless review `"123!"` cleans to the empty
string and yields the all-zero row `[0, 0]` for `max_len = 2`. -/
theorem C10_no_letters_all_zeros_witness :
    clean_text ("123!".toList) = [] ∧
    ((preprocess_text ["123!".toList] 5 2).1)[0]? = some (List.replicate 2 0) := by
  have h := C10_no_letters_all_zeros ("123!".toList) (by decide)
  exact ⟨h.1, h.2 ["123!".toList] 5 2 0 (by decide)⟩
